import Mathlib

set_option maxRecDepth 100000

/-!
Verification of the Parallax license key tool
(`scripts/generate-license.py`): a shallow embedding of the key
derivation and validation logic, together with proofs of the
specified properties.

Machine integers never appear in the Python source; all arithmetic is
modeled on `Nat`, with 32-bit SHA-256 words reduced modulo `2 ^ 32`.
Byte strings are lists of naturals below 256.
-/

namespace Parallax

/-! ## UTF-8 encoding -/

/-- UTF-8 encoding of a single character as its list of byte values,
modelling what CPython's `str.encode("utf-8")` emits for one code
point (Lean characters are exactly the Unicode scalar values). -/
def utf8EncodeChar (c : Char) : List Nat :=
  let n := c.toNat
  if n < 128 then [n]
  else if n < 2048 then [192 + n / 64, 128 + n % 64]
  else if n < 65536 then [224 + n / 4096, 128 + n / 64 % 64, 128 + n % 64]
  else [240 + n / 262144, 128 + n / 4096 % 64, 128 + n / 64 % 64, 128 + n % 64]

/-- UTF-8 encoding of a string, the model of `s.encode("utf-8")`. -/
def utf8Encode (s : String) : List Nat :=
  (s.toList.map utf8EncodeChar).flatten

/-! ## SHA-256 (FIPS 180-4)

The model of `hashlib.sha256`. Thirty-two bit machine words are
naturals reduced modulo `2 ^ 32`. -/

/-- Reduction of a natural to a 32-bit word value. -/
def w32 (n : Nat) : Nat := n % 4294967296

/-- Right rotation of a 32-bit word by `k` positions. -/
def rotr (k n : Nat) : Nat := (n >>> k) ||| w32 (n <<< (32 - k))

/-- Logical right shift. -/
def shr (k n : Nat) : Nat := n >>> k

/-- Three-way exclusive or. -/
def xor3 (a b c : Nat) : Nat := Nat.xor a (Nat.xor b c)

/-- Big sigma-0 function of SHA-256. -/
def bsig0 (x : Nat) : Nat := xor3 (rotr 2 x) (rotr 13 x) (rotr 22 x)

/-- Big sigma-1 function of SHA-256. -/
def bsig1 (x : Nat) : Nat := xor3 (rotr 6 x) (rotr 11 x) (rotr 25 x)

/-- Small sigma-0 function of SHA-256. -/
def ssig0 (x : Nat) : Nat := xor3 (rotr 7 x) (rotr 18 x) (shr 3 x)

/-- Small sigma-1 function of SHA-256. -/
def ssig1 (x : Nat) : Nat := xor3 (rotr 17 x) (rotr 19 x) (shr 10 x)

/-- Choice function of SHA-256. -/
def ch (x y z : Nat) : Nat := Nat.xor (x &&& y) ((Nat.xor x 4294967295) &&& z)

/-- Majority function of SHA-256. -/
def maj (x y z : Nat) : Nat := xor3 (x &&& y) (x &&& z) (y &&& z)

/-- The 64 round constants of SHA-256 (FIPS 180-4 section 4.2.2,
written in decimal). -/
def roundK : List Nat :=
  [1116352408, 1899447441, 3049323471, 3921009573, 961987163,
   1508970993, 2453635748, 2870763221, 3624381080, 310598401,
   607225278, 1426881987, 1925078388, 2162078206, 2614888103,
   3248222580, 3835390401, 4022224774, 264347078, 604807628,
   770255983, 1249150122, 1555081692, 1996064986, 2554220882,
   2821834349, 2952996808, 3210313671, 3336571891, 3584528711,
   113926993, 338241895, 666307205, 773529912, 1294757372,
   1396182291, 1695183700, 1986661051, 2177026350, 2456956037,
   2730485921, 2820302411, 3259730800, 3345764771, 3516065817,
   3600352804, 4094571909, 275423344, 430227734, 506948616,
   659060556, 883997877, 958139571, 1322822218, 1537002063,
   1747873779, 1955562222, 2024104815, 2227730452, 2361852424,
   2428436474, 2756734187, 3204031479, 3329325298]

/-- The initial hash value of SHA-256 (FIPS 180-4 section 5.3.3,
written in decimal). -/
def initH : List Nat :=
  [1779033703, 3144134277, 1013904242, 2773480762, 1359893119,
   2600822924, 528734635, 1541459225]

/-- SHA-256 padding: append the byte `0x80`, zero bytes until the length
is 56 modulo 64, then the bit length of the message as 8 big-endian
bytes. -/
def padMessage (msg : List Nat) : List Nat :=
  let L := msg.length
  let zeros := (119 - L % 64) % 64
  let bitLen := 8 * L
  msg ++ 128 :: List.replicate zeros 0 ++
    [bitLen / 2 ^ 56 % 256, bitLen / 2 ^ 48 % 256, bitLen / 2 ^ 40 % 256,
     bitLen / 2 ^ 32 % 256, bitLen / 2 ^ 24 % 256, bitLen / 2 ^ 16 % 256,
     bitLen / 2 ^ 8 % 256, bitLen % 256]

/-- Grouping of a byte list into 32-bit big-endian words. -/
def bytesToWords : List Nat → List Nat
  | a :: b :: c :: d :: rest =>
      (((a * 256 + b) * 256 + c) * 256 + d) :: bytesToWords rest
  | _ => []

/-- One extension step of the SHA-256 message schedule. -/
def scheduleStep (acc : List Nat) : List Nat :=
  let m := acc.length
  acc ++ [w32 (ssig1 (acc.getD (m - 2) 0) + acc.getD (m - 7) 0 +
               ssig0 (acc.getD (m - 15) 0) + acc.getD (m - 16) 0)]

/-- Iterated message-schedule extension. -/
def extendW : Nat → List Nat → List Nat
  | 0, acc => acc
  | k + 1, acc => extendW k (scheduleStep acc)

/-- One round of the SHA-256 compression function on the eight-word
working state. -/
def compressStep (st : List Nat) (kw : Nat × Nat) : List Nat :=
  match st with
  | [a, b, c, d, e, f, g, h] =>
      let t1 := w32 (h + bsig1 e + ch e f g + kw.1 + kw.2)
      let t2 := w32 (bsig0 a + maj a b c)
      [w32 (t1 + t2), a, b, c, w32 (d + t1), e, f, g]
  | other => other

/-- Processing of a single 16-word block into a hash state. -/
def processBlock (h : List Nat) (block : List Nat) : List Nat :=
  let w := extendW 48 block
  let st := (roundK.zip w).foldl compressStep h
  (h.zip st).map (fun p => w32 (p.1 + p.2))

/-- Processing of `fuel` consecutive 64-byte blocks of a padded message. -/
def processBlocks : Nat → List Nat → List Nat → List Nat
  | 0, h, _ => h
  | fuel + 1, h, msg =>
      processBlocks fuel (processBlock h (bytesToWords (msg.take 64))) (msg.drop 64)

/-- Lowercase hexadecimal digit character for a value below 16. -/
def hexChar (n : Nat) : Char :=
  if n < 10 then Char.ofNat (48 + n) else Char.ofNat (87 + n)

/-- Big-endian lowercase hexadecimal rendering of a 32-bit word. -/
def wordToHex (n : Nat) : List Char :=
  [hexChar (n / 2 ^ 28 % 16), hexChar (n / 2 ^ 24 % 16), hexChar (n / 2 ^ 20 % 16),
   hexChar (n / 2 ^ 16 % 16), hexChar (n / 2 ^ 12 % 16), hexChar (n / 2 ^ 8 % 16),
   hexChar (n / 2 ^ 4 % 16), hexChar (n % 16)]

/-- Final SHA-256 hash state of a byte list, as eight 32-bit words. -/
def sha256words (msg : List Nat) : List Nat :=
  let padded := padMessage msg
  processBlocks (padded.length / 64) initH padded

/-- Lowercase hexadecimal SHA-256 digest of a byte list, the model of
`hashlib.sha256(data).hexdigest()`. Checked against the FIPS 180-4 test
vectors in `sha256hex_abc` below. -/
def sha256hex (msg : List Nat) : List Char :=
  ((sha256words msg).map wordToHex).flatten

/-! ## The license key generator (`generate_license`, lines 24-73) -/

/-- The compiled-in signing secret, `SECRET_KEY` in the script. The
functions below take the secret as an explicit first argument so that
statements can quantify over it; the script always passes this
constant. -/
def SECRET_KEY : String :=
  "CHANGE_THIS_TO_RANDOM_64_CHAR_STRING_KEEP_IT_SECRET_AND_SAFE"

/-- Python's `str.lower()` as a per-character map (ASCII case mapping,
which is all the tier alphabet exercises). -/
def pyLower (s : String) : String :=
  String.mk (s.toList.map Char.toLower)

/-- Digest fragment bound into a key: the first 12 characters of the
lowercase-hex SHA-256 of `email|tier|secret`, uppercased. This models
`hashlib.sha256(hash_input).hexdigest()[:12].upper()`, the expression
shared verbatim by `generate_license` (lines 59-63) and
`validate_license` (lines 115-116). -/
def digestChars (secret email tier : String) : List Char :=
  ((sha256hex (utf8Encode (email ++ "|" ++ tier ++ "|" ++ secret))).take 12).map
    Char.toUpper

/-- The `tier_codes` table of `generate_license`; Python's one-character
code strings are modeled as characters. -/
def tier_codes : List (String × Char) :=
  [("pro", 'P'), ("team", 'T'), ("enterprise", 'E')]

/-- Python's `[key_raw[i:i+4] for i in range(0, len(key_raw), 4)]`:
`range(0, n, 4)` has `(n + 3) / 4` elements `0, 4, 8, ...`, and the
slice `key_raw[i:i+4]` is `(key_raw.drop i).take 4`. -/
def pySegments (l : List Char) : List (List Char) :=
  (List.range' 0 ((l.length + 3) / 4) 4).map (fun i => (l.drop i).take 4)

/-- Python's `sep.join(parts)` on character lists. -/
def joinWith (sep : List Char) : List (List Char) → List Char
  | [] => []
  | [x] => x
  | x :: xs => x ++ sep ++ joinWith sep xs

/-- Key derivation, the model of `generate_license`. The Python function
raises `ValueError` for an unknown tier; that is modeled as
`Except.error` carrying the same message. -/
def generate_license (secret email tier : String) : Except String String :=
  let tier_lower := pyLower tier
  match tier_codes.lookup tier_lower with
  | none =>
      Except.error ("Invalid tier: " ++ tier ++ ". Must be pro, team, or enterprise")
  | some tier_code =>
      let expiry := "LIFE"
      let hash_part := digestChars secret email tier_lower
      let key_raw := ("PRLX".toList ++ [tier_code]) ++ (expiry.toList ++ hash_part)
      Except.ok (String.mk (joinWith ['-'] (pySegments key_raw)))

/-! ## The license key validator (`validate_license`, lines 76-130) -/

/-- Whitespace predicate of Python's `str.strip()`: the characters for
which `str.isspace()` holds. -/
def pySpace (c : Char) : Bool :=
  [' ', '\t', '\n', '\x0B', '\x0C', '\r', '\x1C', '\x1D', '\x1E', '\x1F',
   '\x85', ' ', ' ', ' ', ' ', ' ', ' ',
   ' ', ' ', ' ', ' ', ' ', ' ', ' ',
   ' ', ' ', ' ', ' ', '　'].contains c

/-- Removal of trailing characters satisfying `p`. -/
def dropTrailing (p : Char → Bool) (l : List Char) : List Char :=
  (l.reverse.dropWhile p).reverse

/-- Python's `str.strip()`: removal of leading and trailing whitespace. -/
def pyStrip (l : List Char) : List Char :=
  (dropTrailing pySpace l).dropWhile pySpace

/-- The validator's cleaning step (line 93),
`license_key.replace("-", "").replace(" ", "").strip()`: a
single-character `str.replace(c, "")` removes every occurrence of `c`. -/
def cleanKey (l : List Char) : List Char :=
  pyStrip ((l.filter (fun c => c != '-')).filter (fun c => c != ' '))

/-- The result dictionary of `validate_license`; keys absent from the
Python dict are `none`. -/
structure ValidationResult where
  valid : Bool
  tier : Option String := none
  expiry : Option String := none
  email : Option String := none
  error : Option String := none
deriving Repr, DecidableEq

/-- The reverse `tier_map` table of `validate_license`. -/
def tier_map : List (Char × String) :=
  [('P', "pro"), ('T', "team"), ('E', "enterprise")]

/-- The body of `validate_license` after the cleaning step (lines
95-127), applied to the cleaned key. Indexing `key_clean[4]` is modeled
with a default that the preceding length guard makes unreachable. -/
def validateClean (secret : String) (key_clean : List Char) (email : String) :
    ValidationResult :=
  if key_clean.take 4 ≠ "PRLX".toList then
    { valid := false, error := some "Invalid format: must start with PRLX" }
  else if key_clean.length < 17 then
    { valid := false, error := some "Invalid format: key too short" }
  else
    let tier_code := key_clean.getD 4 ' '
    let expiry := (key_clean.drop 5).take 4
    let hash_provided := key_clean.drop 9
    match tier_map.lookup tier_code with
    | none => { valid := false, error := some "Invalid tier code" }
    | some tier =>
        let hash_expected := digestChars secret email tier
        if hash_provided ≠ hash_expected then
          { valid := false, error := some "Invalid key: hash mismatch" }
        else
          { valid := true, tier := some tier, expiry := some (String.mk expiry),
            email := some email }

/-- Key validation, the model of `validate_license`. Every operation in
the Python body is total, so the `try` wrapper's `except` arm (line
129) is dead and the model is a plain total function. -/
def validate_license (secret license_key email : String) : ValidationResult :=
  validateClean secret (cleanKey license_key.toList) email

/-! ## Character-class facts -/

/-- Lowercase hexadecimal alphabet, as emitted by `hexdigest()`. -/
def lowerHex : List Char := "0123456789abcdef".toList

/-- Uppercase hexadecimal alphabet, the character set of digest
fragments. -/
def upperHex : List Char := "0123456789ABCDEF".toList

/-- The combined character filter of the two `replace` calls of the
cleaning step. -/
def keep (c : Char) : Bool := (c != ' ') && (c != '-')

/-- The nine fixed leading characters of a cleaned key: prefix, tier
code and expiry marker. -/
def rawPrefix (tc : Char) : List Char := ['P', 'R', 'L', 'X', tc, 'L', 'I', 'F', 'E']

/-- Fuelled successive splitting into 4-character chunks. -/
def chunksF : Nat → List Char → List (List Char)
  | 0, _ => []
  | _ + 1, [] => []
  | fuel + 1, c :: l => ((c :: l).take 4) :: chunksF fuel ((c :: l).drop 4)

/-- Successive splitting of a list into 4-character chunks, the
description the specification gives of the hyphenation. -/
def chunks4 (l : List Char) : List (List Char) :=
  chunksF l.length l

/-- Digest fragment as the specification words it: the lowercase-hex
SHA-256 rendering, uppercased, then truncated to its first 12
characters (the code truncates before uppercasing; the two agree). -/
def specDigest (secret email tier : String) : List Char :=
  ((sha256hex (utf8Encode (email ++ "|" ++ tier ++ "|" ++ secret))).map
    Char.toUpper).take 12

/-- Digest fragment determined by the first two words of the hash
state: the whole fragment is a function of 64 bits of the digest. -/
def digestOfWords (w0 w1 : Nat) : List Char :=
  ((wordToHex w0 ++ wordToHex w1).take 12).map Char.toUpper

/-- Decidable equality for generator results, used to evaluate the
model on concrete fixtures. -/
instance : DecidableEq (Except String String) := fun a b =>
  match a, b with
  | .ok x, .ok y =>
      if h : x = y then .isTrue (by rw [h]) else .isFalse (by simp [h])
  | .error x, .error y =>
      if h : x = y then .isTrue (by rw [h]) else .isFalse (by simp [h])
  | .ok _, .error _ => .isFalse (by simp)
  | .error _, .ok _ => .isFalse (by simp)

theorem sha256hex_abc :
    String.mk (sha256hex (utf8Encode "abc")) =
      "ba7816bf8f01cfea414140de5dae2223b00361a396177a9cb410ff61f20015ad" ∧
    String.mk (sha256hex (utf8Encode "")) =
      "e3b0c44298fc1c149afbf4c8996fb92427ae41e4649b934ca495991b7852b855" := by
  constructor <;> rfl

/-! ## Length facts about the hash pipeline -/

theorem compressStep_length (st : List Nat) (kw : Nat × Nat) :
    (compressStep st kw).length = st.length := by
  unfold compressStep
  split <;> simp

theorem foldl_compressStep_length (l : List (Nat × Nat)) (h : List Nat) :
    (l.foldl compressStep h).length = h.length := by
  induction l generalizing h with
  | nil => rfl
  | cons x xs ih => rw [List.foldl_cons, ih, compressStep_length]

theorem processBlock_length (h b : List Nat) :
    (processBlock h b).length = h.length := by
  unfold processBlock
  simp [foldl_compressStep_length]

theorem processBlocks_length :
    ∀ (fuel : Nat) (h msg : List Nat), (processBlocks fuel h msg).length = h.length
  | 0, _, _ => rfl
  | fuel + 1, h, msg => by
      rw [processBlocks, processBlocks_length fuel, processBlock_length]

theorem sha256words_length (msg : List Nat) : (sha256words msg).length = 8 := by
  unfold sha256words
  rw [processBlocks_length]
  rfl

theorem length_flatten_wordToHex (ws : List Nat) :
    ((ws.map wordToHex).flatten).length = 8 * ws.length := by
  induction ws with
  | nil => rfl
  | cons w ws ih =>
      simp only [List.map_cons, List.flatten_cons, List.length_append, ih,
        List.length_cons]
      have : (wordToHex w).length = 8 := rfl
      omega

theorem sha256hex_length (msg : List Nat) : (sha256hex msg).length = 64 := by
  unfold sha256hex
  rw [length_flatten_wordToHex, sha256words_length]

theorem digestChars_length (s e t : String) : (digestChars s e t).length = 12 := by
  unfold digestChars
  rw [List.length_map, List.length_take, sha256hex_length]
  decide

/-! ## Alphabet facts about the digest -/

theorem hexChar_mem : ∀ m < 16, hexChar m ∈ lowerHex := by decide

theorem mem_wordToHex (c : Char) (n : Nat) (h : c ∈ wordToHex n) : c ∈ lowerHex := by
  unfold wordToHex at h
  have h16 : ∀ m : Nat, m % 16 < 16 := fun m => Nat.mod_lt _ (by norm_num)
  simp only [List.mem_cons, List.not_mem_nil, or_false] at h
  rcases h with h | h | h | h | h | h | h | h <;>
    (subst h; exact hexChar_mem _ (h16 _))

theorem mem_sha256hex (c : Char) (msg : List Nat) (h : c ∈ sha256hex msg) :
    c ∈ lowerHex := by
  unfold sha256hex at h
  rw [List.mem_flatten] at h
  obtain ⟨l, hl, hc⟩ := h
  rw [List.mem_map] at hl
  obtain ⟨n, _, rfl⟩ := hl
  exact mem_wordToHex _ _ hc

theorem mem_digestChars (c : Char) (s e t : String) (h : c ∈ digestChars s e t) :
    c ∈ upperHex := by
  unfold digestChars at h
  rw [List.mem_map] at h
  obtain ⟨d, hd, rfl⟩ := h
  have hlow := mem_sha256hex d _ (List.take_subset _ _ hd)
  have hup : ∀ x ∈ lowerHex, Char.toUpper x ∈ upperHex := by decide
  exact hup d hlow

/-! ## The chunking of the raw key

The specification describes the hyphenation as a split into successive
4-character chunks; the code uses `range(0, len, 4)` with slices. The
two agree (`pySegments_eq_chunks4`). -/

theorem map_range'_shift {β : Type} :
    ∀ (k : Nat) (g : Nat → β) (s : Nat),
      (List.range' s k 4).map g = (List.range' 0 k 4).map (fun i => g (s + i)) := by
  intro k
  induction k with
  | zero => intro g s; rfl
  | succ k ih =>
      intro g s
      rw [List.range'_succ, List.range'_succ, List.map_cons, List.map_cons,
        ih g (s + 4), ih (fun i => g (s + i)) 4]
      simp [Nat.add_assoc]

theorem segments_count_succ (n : Nat) (hn : 1 ≤ n) :
    (n + 3) / 4 = (n - 4 + 3) / 4 + 1 := by
  rcases Nat.lt_or_ge n 5 with h | h
  · interval_cases n <;> rfl
  · have hrw : n + 3 = (n - 4 + 3) + 4 := by omega
    rw [hrw, Nat.add_div_right _ (by norm_num)]

theorem pySegments_eq_chunksF :
    ∀ (fuel : Nat) (l : List Char), l.length ≤ fuel → pySegments l = chunksF fuel l := by
  intro fuel
  induction fuel with
  | zero =>
      intro l hl
      have : l = [] := List.length_eq_zero.mp (Nat.le_zero.mp hl)
      subst this
      rfl
  | succ fuel ih =>
      intro l hl
      match l with
      | [] => rfl
      | c :: cs =>
          unfold pySegments
          rw [segments_count_succ _ (by simp), List.range'_succ, List.map_cons,
            map_range'_shift]
          have hdrop : ((c :: cs).drop 4).length = (c :: cs).length - 4 :=
            List.length_drop 4 (c :: cs)
          rw [show chunksF (fuel + 1) (c :: cs) =
              ((c :: cs).take 4) :: chunksF fuel ((c :: cs).drop 4) from rfl]
          rw [← hdrop]
          congr 1
          · rw [← ih ((c :: cs).drop 4) (by simp at hl ⊢; omega)]
            unfold pySegments
            congr 1
            funext i
            rw [List.drop_drop]

theorem flatten_chunksF :
    ∀ (fuel : Nat) (l : List Char), l.length ≤ fuel → (chunksF fuel l).flatten = l := by
  intro fuel
  induction fuel with
  | zero =>
      intro l hl
      have : l = [] := List.length_eq_zero.mp (Nat.le_zero.mp hl)
      subst this
      rfl
  | succ fuel ih =>
      intro l hl
      match l with
      | [] => rfl
      | c :: cs =>
          rw [show chunksF (fuel + 1) (c :: cs) =
              ((c :: cs).take 4) :: chunksF fuel ((c :: cs).drop 4) from rfl]
          rw [List.flatten_cons, ih ((c :: cs).drop 4) (by simp at hl ⊢; omega),
            List.take_append_drop]

theorem pySegments_eq_chunks4 (l : List Char) : pySegments l = chunks4 l :=
  pySegments_eq_chunksF l.length l le_rfl

theorem flatten_pySegments (l : List Char) : (pySegments l).flatten = l := by
  rw [pySegments_eq_chunks4]
  exact flatten_chunksF l.length l le_rfl

/-! ## Facts about the cleaning step -/

theorem cleanKey_eq (l : List Char) : cleanKey l = pyStrip (l.filter keep) := by
  unfold cleanKey
  rw [List.filter_filter]
  rfl

theorem dropWhile_eq_self_of_forall (p : Char → Bool) (l : List Char)
    (h : ∀ c ∈ l, p c = false) : l.dropWhile p = l := by
  cases l with
  | nil => rfl
  | cons c cs =>
      rw [List.dropWhile_cons, h c (List.mem_cons_self c cs)]
      simp

theorem dropTrailing_eq_self_of_forall (p : Char → Bool) (l : List Char)
    (h : ∀ c ∈ l, p c = false) : dropTrailing p l = l := by
  unfold dropTrailing
  rw [dropWhile_eq_self_of_forall p _ (fun c hc => h c (List.mem_reverse.mp hc)),
    List.reverse_reverse]

theorem pyStrip_eq_self (l : List Char) (h : ∀ c ∈ l, pySpace c = false) :
    pyStrip l = l := by
  unfold pyStrip
  rw [dropTrailing_eq_self_of_forall _ _ h, dropWhile_eq_self_of_forall _ _ h]

theorem cleanKey_eq_self (l : List Char)
    (h : ∀ c ∈ l, keep c = true ∧ pySpace c = false) : cleanKey l = l := by
  rw [cleanKey_eq, List.filter_eq_self.mpr (fun a ha => (h a ha).1),
    pyStrip_eq_self _ (fun c hc => (h c hc).2)]

theorem filter_joinWith (p : Char → Bool) (hp : p '-' = false) :
    ∀ segs : List (List Char),
      (joinWith ['-'] segs).filter p = (segs.flatten).filter p := by
  intro segs
  induction segs with
  | nil => rfl
  | cons x xs ih =>
      cases xs with
      | nil => simp [joinWith]
      | cons y ys =>
          rw [show joinWith ['-'] (x :: y :: ys) =
              x ++ ['-'] ++ joinWith ['-'] (y :: ys) from rfl]
          rw [List.flatten_cons, List.filter_append, List.filter_append,
            List.filter_append, ih]
          simp [hp]

/-! ## The shape of generated keys -/

theorem upperHex_keep : ∀ c ∈ upperHex, keep c = true ∧ pySpace c = false := by
  decide

theorem rawPrefix_keep (tc : Char) (htc : tc ∈ ['P', 'T', 'E']) :
    ∀ c ∈ rawPrefix tc, keep c = true ∧ pySpace c = false := by
  fin_cases htc <;> decide

theorem cleanKey_generated (tc : Char) (htc : tc ∈ ['P', 'T', 'E']) (d : List Char)
    (hd : ∀ c ∈ d, c ∈ upperHex) :
    cleanKey (joinWith ['-'] (pySegments (rawPrefix tc ++ d))) = rawPrefix tc ++ d := by
  have hchars : ∀ c ∈ rawPrefix tc ++ d, keep c = true ∧ pySpace c = false := by
    intro c hc
    rcases List.mem_append.mp hc with h | h
    · exact rawPrefix_keep tc htc c h
    · exact upperHex_keep c (hd c h)
  rw [cleanKey_eq, filter_joinWith keep (by decide), flatten_pySegments,
    List.filter_eq_self.mpr (fun a ha => (hchars a ha).1),
    pyStrip_eq_self _ (fun c hc => (hchars c hc).2)]

theorem generate_license_eq (s e tl : String) (tc : Char)
    (hmem : (tl, tc) ∈ tier_codes) :
    generate_license s e tl =
      Except.ok (String.mk (joinWith ['-']
        (pySegments (rawPrefix tc ++ digestChars s e tl)))) := by
  have hmem3 : (tl = "pro" ∧ tc = 'P') ∨ (tl = "team" ∧ tc = 'T') ∨
      (tl = "enterprise" ∧ tc = 'E') := by
    simpa [tier_codes, Prod.ext_iff] using hmem
  rcases hmem3 with ⟨h1, h2⟩ | ⟨h1, h2⟩ | ⟨h1, h2⟩ <;> subst h1 <;> subst h2 <;> rfl

theorem validateClean_raw (s e tl : String) (tc : Char)
    (hmem : (tl, tc) ∈ tier_codes) (X : List Char) (hX : 8 ≤ X.length) :
    validateClean s (rawPrefix tc ++ X) e =
      if X = digestChars s e tl then
        { valid := true, tier := some tl, expiry := some "LIFE", email := some e }
      else
        { valid := false, error := some "Invalid key: hash mismatch" } := by
  have hmem3 : (tl = "pro" ∧ tc = 'P') ∨ (tl = "team" ∧ tc = 'T') ∨
      (tl = "enterprise" ∧ tc = 'E') := by
    simpa [tier_codes, Prod.ext_iff] using hmem
  rcases hmem3 with ⟨h1, h2⟩ | ⟨h1, h2⟩ | ⟨h1, h2⟩ <;> subst h1 <;> subst h2 <;>
    unfold validateClean <;>
    rw [if_neg (fun h => h rfl)] <;>
    rw [if_neg (by
      simp only [rawPrefix, List.length_append, List.length_cons, List.length_nil,
        not_lt]
      omega)]
  · show (if X ≠ digestChars s e "pro" then
        ({ valid := false, error := some "Invalid key: hash mismatch" } :
          ValidationResult)
      else
        { valid := true, tier := some "pro", expiry := some "LIFE",
          email := some e }) = _
    by_cases h : X = digestChars s e "pro"
    · rw [if_neg (fun hh => hh h), if_pos h]
    · rw [if_pos h, if_neg h]
  · show (if X ≠ digestChars s e "team" then
        ({ valid := false, error := some "Invalid key: hash mismatch" } :
          ValidationResult)
      else
        { valid := true, tier := some "team", expiry := some "LIFE",
          email := some e }) = _
    by_cases h : X = digestChars s e "team"
    · rw [if_neg (fun hh => hh h), if_pos h]
    · rw [if_pos h, if_neg h]
  · show (if X ≠ digestChars s e "enterprise" then
        ({ valid := false, error := some "Invalid key: hash mismatch" } :
          ValidationResult)
      else
        { valid := true, tier := some "enterprise", expiry := some "LIFE",
          email := some e }) = _
    by_cases h : X = digestChars s e "enterprise"
    · rw [if_neg (fun hh => hh h), if_pos h]
    · rw [if_pos h, if_neg h]

theorem toList_mk (l : List Char) : (String.mk l).toList = l := rfl

theorem specDigest_eq (s e t : String) : specDigest s e t = digestChars s e t := by
  unfold specDigest digestChars
  rw [List.map_take]

theorem validate_generated (s e a tl : String) (tc : Char)
    (hmem : (tl, tc) ∈ tier_codes) (htc : tc ∈ ['P', 'T', 'E']) :
    validate_license s
        (String.mk (joinWith ['-'] (pySegments (rawPrefix tc ++ digestChars s a tl))))
        e =
      if digestChars s a tl = digestChars s e tl then
        { valid := true, tier := some tl, expiry := some "LIFE", email := some e }
      else
        { valid := false, error := some "Invalid key: hash mismatch" } := by
  unfold validate_license
  rw [toList_mk,
    cleanKey_generated tc htc _ (fun c hc => mem_digestChars c s a tl hc),
    validateClean_raw s e tl tc hmem _ (by rw [digestChars_length]; omega)]

/-! ## C1: the round trip property -/

/-- C1: for every secret, email and tier in `{pro, team, enterprise}`,
validating the key produced by `generate_license` against the same
email returns a result with `valid = true` whose decoded tier equals
the input tier. -/
theorem c1_round_trip (s e tier : String)
    (htier : tier ∈ ["pro", "team", "enterprise"]) (key : String)
    (hkey : generate_license s e tier = Except.ok key) :
    (validate_license s key e).valid = true ∧
      (validate_license s key e).tier = some tier := by
  obtain ⟨tc, hmem, htc3⟩ : ∃ tc, (tier, tc) ∈ tier_codes ∧ tc ∈ ['P', 'T', 'E'] := by
    have h3 : tier = "pro" ∨ tier = "team" ∨ tier = "enterprise" := by
      simpa using htier
    rcases h3 with h | h | h <;> subst h
    · exact ⟨'P', by decide, by decide⟩
    · exact ⟨'T', by decide, by decide⟩
    · exact ⟨'E', by decide, by decide⟩
  rw [generate_license_eq s e tier tc hmem] at hkey
  have hk := Except.ok.inj hkey
  subst hk
  rw [validate_generated s e e tier tc hmem htc3, if_pos rfl]
  exact ⟨rfl, rfl⟩

/-- Witness for C1 at the fixture secret `"S"`, email `"a@b.com"` and
tier `"pro"`. -/
theorem c1_round_trip_witness :
    "pro" ∈ ["pro", "team", "enterprise"] ∧
    generate_license "S" "a@b.com" "pro" =
      Except.ok "PRLX-PLIF-EE79-CCA9-9C0F-6" ∧
    ((validate_license "S" "PRLX-PLIF-EE79-CCA9-9C0F-6" "a@b.com").valid = true ∧
      (validate_license "S" "PRLX-PLIF-EE79-CCA9-9C0F-6" "a@b.com").tier =
        some "pro") :=
  ⟨by decide, by decide,
    c1_round_trip "S" "a@b.com" "pro" (by decide) _ (by decide)⟩

/-! ## C2: the exact layout of generated keys -/

/-- C2: for every secret, email and tier with its code, the generator
returns exactly the hyphenation into successive 4-character chunks of
the 21-character raw key `PRLX` + tier code + `LIFE` + digest part,
where the digest part is the first 12 characters of the uppercased
lowercase-hex SHA-256 of `email|tier|secret`. -/
theorem c2_key_layout (s e tl : String) (tc : Char) (hmem : (tl, tc) ∈ tier_codes) :
    generate_license s e tl =
      Except.ok (String.mk (joinWith ['-']
        (chunks4 ("PRLX".toList ++ [tc] ++ "LIFE".toList ++ specDigest s e tl)))) ∧
    ("PRLX".toList ++ [tc] ++ "LIFE".toList ++ specDigest s e tl).length = 21 := by
  have hraw : "PRLX".toList ++ [tc] ++ "LIFE".toList ++ specDigest s e tl =
      rawPrefix tc ++ digestChars s e tl := by
    rw [specDigest_eq]
    rfl
  rw [hraw]
  refine ⟨?_, ?_⟩
  · rw [← pySegments_eq_chunks4]
    exact generate_license_eq s e tl tc hmem
  · rw [List.length_append, digestChars_length]
    rfl

/-- Witness for C2 at the fixture secret `"S"`, email `"a@b.com"` and
tier `"pro"`. -/
theorem c2_key_layout_witness :
    ("pro", 'P') ∈ tier_codes ∧
    (generate_license "S" "a@b.com" "pro" =
      Except.ok (String.mk (joinWith ['-']
        (chunks4 ("PRLX".toList ++ ['P'] ++ "LIFE".toList ++
          specDigest "S" "a@b.com" "pro")))) ∧
    ("PRLX".toList ++ ['P'] ++ "LIFE".toList ++
      specDigest "S" "a@b.com" "pro").length = 21) :=
  ⟨by decide, c2_key_layout "S" "a@b.com" "pro" 'P' (by decide)⟩

/-! ## C4: tier rejection -/

theorem tier_codes_lookup_none (x : String) :
    List.lookup x tier_codes = none ↔ x ∉ ["pro", "team", "enterprise"] := by
  by_cases h1 : x = "pro"
  · subst h1; decide
  by_cases h2 : x = "team"
  · subst h2; decide
  by_cases h3 : x = "enterprise"
  · subst h3; decide
  have b1 : (x == "pro") = false := beq_eq_false_iff_ne.mpr h1
  have b2 : (x == "team") = false := beq_eq_false_iff_ne.mpr h2
  have b3 : (x == "enterprise") = false := beq_eq_false_iff_ne.mpr h3
  simp [tier_codes, List.lookup, b1, b2, b3, h1, h2, h3]

/-- C4: `generate_license` fails with the invalid-tier error exactly
when the lowercased tier is not one of pro, team, enterprise; in
particular tier `"gold"` is rejected for every email. -/
theorem c4_tier_rejection (s e tier : String) :
    ((∃ m, generate_license s e tier = Except.error m) ↔
      pyLower tier ∉ ["pro", "team", "enterprise"]) ∧
    generate_license s e "gold" =
      Except.error "Invalid tier: gold. Must be pro, team, or enterprise" := by
  constructor
  · unfold generate_license
    dsimp only
    rcases hnone : List.lookup (pyLower tier) tier_codes with _ | tc
    · constructor
      · intro _
        exact (tier_codes_lookup_none _).mp hnone
      · intro _
        exact ⟨_, rfl⟩
    · constructor
      · intro ⟨m, hm⟩
        exact absurd hm (by simp)
      · intro hmem
        have : List.lookup (pyLower tier) tier_codes = none :=
          (tier_codes_lookup_none _).mpr hmem
        rw [hnone] at this
        exact absurd this (by simp)
  · rfl

/-! ## C3: total validation with structured failures -/

/-- C3: `validate_license` is a total function (the `try` wrapper of the
Python body protects only total operations), and every result either
succeeds with no error or fails with `valid = false` and a non-empty
human-readable reason. -/
theorem c3_structured_failure (s k e : String) :
    ((validate_license s k e).valid = true ∧ (validate_license s k e).error = none) ∨
    ((validate_license s k e).valid = false ∧
      ∃ m, (validate_license s k e).error = some m ∧ m ≠ "") := by
  unfold validate_license validateClean
  split
  · exact Or.inr ⟨rfl, _, rfl, by decide⟩
  split
  · exact Or.inr ⟨rfl, _, rfl, by decide⟩
  dsimp only
  split
  · exact Or.inr ⟨rfl, _, rfl, by decide⟩
  split
  · exact Or.inr ⟨rfl, _, rfl, by decide⟩
  · exact Or.inl ⟨rfl, rfl⟩

/-! ## C8: the bad-format rejections -/

/-- C8: validation fails with one of the two bad-format reasons exactly
when the cleaned key does not start with `PRLX` or is shorter than 17
characters. -/
theorem c8_bad_format (s k e : String) :
    ((validate_license s k e).valid = false ∧
      ((validate_license s k e).error =
          some "Invalid format: must start with PRLX" ∨
        (validate_license s k e).error = some "Invalid format: key too short")) ↔
      ((cleanKey k.toList).take 4 ≠ "PRLX".toList ∨
        (cleanKey k.toList).length < 17) := by
  unfold validate_license validateClean
  split
  · rename_i h
    exact iff_of_true ⟨rfl, Or.inl rfl⟩ (Or.inl h)
  split
  · rename_i h h2
    exact iff_of_true ⟨rfl, Or.inr rfl⟩ (Or.inr h2)
  rename_i h h2
  rw [not_not] at h
  have hrhs : ¬ ((cleanKey k.toList).take 4 ≠ "PRLX".toList ∨
      (cleanKey k.toList).length < 17) := by
    intro hor
    rcases hor with hor | hor
    · exact hor h
    · exact h2 hor
  dsimp only
  split
  · refine iff_of_false ?_ hrhs
    rintro ⟨-, hor | hor⟩ <;> exact absurd hor (by decide)
  split
  · refine iff_of_false ?_ hrhs
    rintro ⟨-, hor | hor⟩ <;> exact absurd hor (by decide)
  · refine iff_of_false ?_ hrhs
    rintro ⟨-, hor | hor⟩ <;> exact absurd hor (by simp)

/-! ## C9: the concrete fixture scenario

With secret `"S"`, email `"a@b.com"` and tier `"pro"` the digest
fragment is `E79CCA99C0F6`, and the raw key `PRLXPLIFEE79CCA99C0F6` is
hyphenated at 4-character boundaries. The specification's claimed
grouping `PRLXP-LIFE-…` does not match the code, which emits
`PRLX-PLIF-EE79-CCA9-9C0F-6`. -/

/-- Counterexample to C9 as stated: the derived key is not
`"PRLXP-LIFE"` followed by the digest fragment in 4-character groups. -/
theorem c9_counterexample :
    generate_license "S" "a@b.com" "pro" ≠
      Except.ok ("PRLXP-LIFE-" ++
        String.mk ((digestChars "S" "a@b.com" "pro").take 4) ++ "-" ++
        String.mk (((digestChars "S" "a@b.com" "pro").drop 4).take 4) ++ "-" ++
        String.mk ((digestChars "S" "a@b.com" "pro").drop 8)) := by
  decide

/-- C9 amended: with secret `"S"`, email `"a@b.com"` and tier `"pro"`,
the digest fragment `H` is `E79CCA99C0F6` and the derived key is
`"PRLX" + "P" + "LIFE" + H` hyphen-grouped into successive 4-character
chunks, giving the pinned literal `PRLX-PLIF-EE79-CCA9-9C0F-6`. -/
theorem c9_fixture :
    String.mk (digestChars "S" "a@b.com" "pro") = "E79CCA99C0F6" ∧
    generate_license "S" "a@b.com" "pro" =
      Except.ok "PRLX-PLIF-EE79-CCA9-9C0F-6" ∧
    String.mk (joinWith ['-']
        (chunks4 ("PRLXPLIFE".toList ++ digestChars "S" "a@b.com" "pro"))) =
      "PRLX-PLIF-EE79-CCA9-9C0F-6" := by
  refine ⟨by decide, by decide, by decide⟩

/-! ## C6: email binding

The claim as universally stated is false: the digest fragment ranges
over a finite set (it is determined by 64 bits of the hash state), so
by the pigeonhole principle two distinct emails share a fragment, and
the key of one validates against the other. The amended claim binds
the verdict to inequality of the digest fragments. -/

theorem processBlock_lt (h b : List Nat) :
    ∀ x ∈ processBlock h b, x < 4294967296 := by
  intro x hx
  unfold processBlock at hx
  rw [List.mem_map] at hx
  obtain ⟨p, _, rfl⟩ := hx
  exact Nat.mod_lt _ (by norm_num)

theorem processBlocks_lt :
    ∀ (fuel : Nat) (h msg : List Nat), (∀ x ∈ h, x < 4294967296) →
      ∀ x ∈ processBlocks fuel h msg, x < 4294967296
  | 0, h, msg, hh => hh
  | fuel + 1, h, msg, hh => by
      rw [processBlocks]
      exact processBlocks_lt fuel _ _ (processBlock_lt h _)

theorem sha256words_lt (msg : List Nat) :
    ∀ x ∈ sha256words msg, x < 4294967296 := by
  unfold sha256words
  exact processBlocks_lt _ _ _ (by decide)

theorem sha256words_getD_lt (msg : List Nat) (i : Nat) (hi : i < 8) :
    (sha256words msg).getD i 0 < 4294967296 := by
  have hlen := sha256words_length msg
  have hmem : (sha256words msg).getD i 0 ∈ sha256words msg := by
    rw [List.getD_eq_getElem _ _ (by omega)]
    exact List.getElem_mem _
  exact sha256words_lt msg _ hmem

theorem digestChars_eq_digestOfWords (s e t : String) :
    digestChars s e t =
      digestOfWords
        ((sha256words (utf8Encode (e ++ "|" ++ t ++ "|" ++ s))).getD 0 0)
        ((sha256words (utf8Encode (e ++ "|" ++ t ++ "|" ++ s))).getD 1 0) := by
  have hlen := sha256words_length (utf8Encode (e ++ "|" ++ t ++ "|" ++ s))
  obtain ⟨w0, w1, rest, hws⟩ :
      ∃ w0 w1 rest, sha256words (utf8Encode (e ++ "|" ++ t ++ "|" ++ s)) =
        w0 :: w1 :: rest := by
    rcases hw : sha256words (utf8Encode (e ++ "|" ++ t ++ "|" ++ s)) with
      _ | ⟨w0, _ | ⟨w1, rest⟩⟩
    · rw [hw] at hlen; simp at hlen
    · rw [hw] at hlen; simp at hlen
    · exact ⟨w0, w1, rest, rfl⟩
  unfold digestChars sha256hex
  rw [hws]
  rfl

/-- An infinite family of pairwise distinct email strings. -/
def emailOf (n : Nat) : String := String.mk (List.replicate n 'a')

theorem emailOf_inj (n m : Nat) (h : emailOf n = emailOf m) : n = m := by
  have := congrArg (fun s => s.toList.length) h
  simpa [emailOf] using this

/-- By the pigeonhole principle, some two distinct emails share their
truncated digest fragment. -/
theorem digest_collision (s t : String) :
    ∃ a b : String, a ≠ b ∧ digestChars s a t = digestChars s b t := by
  have hbound : ∀ n : Nat,
      (sha256words (utf8Encode (emailOf n ++ "|" ++ t ++ "|" ++ s))).getD 0 0 *
          4294967296 +
        (sha256words (utf8Encode (emailOf n ++ "|" ++ t ++ "|" ++ s))).getD 1 0 <
          18446744073709551616 := by
    intro n
    have h0 := sha256words_getD_lt (utf8Encode (emailOf n ++ "|" ++ t ++ "|" ++ s))
      0 (by norm_num)
    have h1 := sha256words_getD_lt (utf8Encode (emailOf n ++ "|" ++ t ++ "|" ++ s))
      1 (by norm_num)
    omega
  obtain ⟨n, m, hnm, hf⟩ := Finite.exists_ne_map_eq_of_infinite
    (fun n : Nat => (⟨_, hbound n⟩ : Fin 18446744073709551616))
  refine ⟨emailOf n, emailOf m, fun hc => hnm (emailOf_inj n m hc), ?_⟩
  have hval := congrArg Fin.val hf
  dsimp only at hval
  have h0n := sha256words_getD_lt (utf8Encode (emailOf n ++ "|" ++ t ++ "|" ++ s))
    0 (by norm_num)
  have h1n := sha256words_getD_lt (utf8Encode (emailOf n ++ "|" ++ t ++ "|" ++ s))
    1 (by norm_num)
  have h0m := sha256words_getD_lt (utf8Encode (emailOf m ++ "|" ++ t ++ "|" ++ s))
    0 (by norm_num)
  have h1m := sha256words_getD_lt (utf8Encode (emailOf m ++ "|" ++ t ++ "|" ++ s))
    1 (by norm_num)
  rw [digestChars_eq_digestOfWords, digestChars_eq_digestOfWords]
  have e0 : (sha256words (utf8Encode (emailOf n ++ "|" ++ t ++ "|" ++ s))).getD 0 0 =
      (sha256words (utf8Encode (emailOf m ++ "|" ++ t ++ "|" ++ s))).getD 0 0 := by
    omega
  have e1 : (sha256words (utf8Encode (emailOf n ++ "|" ++ t ++ "|" ++ s))).getD 1 0 =
      (sha256words (utf8Encode (emailOf m ++ "|" ++ t ++ "|" ++ s))).getD 1 0 := by
    omega
  rw [e0, e1]

/-- Counterexample to C6 as stated: it is not the case that for every
tier and every pair of distinct emails, the key derived for the first
email fails to validate against the second — truncated-digest
collisions exist and validate successfully. -/
theorem c6_counterexample :
    ¬ (∀ tier ∈ ["pro", "team", "enterprise"], ∀ a b : String, a ≠ b →
        ∀ key : String, generate_license SECRET_KEY a tier = Except.ok key →
          (validate_license SECRET_KEY key b).valid = false) := by
  intro H
  obtain ⟨a, b, hab, hd⟩ := digest_collision SECRET_KEY "pro"
  have hgen := generate_license_eq SECRET_KEY a "pro" 'P' (by decide)
  have hval := validate_generated SECRET_KEY b a "pro" 'P' (by decide) (by decide)
  rw [if_pos hd] at hval
  have := H "pro" (by decide) a b hab _ hgen
  rw [hval] at this
  simp at this

/-- C6 amended: for every secret, tier in `{pro, team, enterprise}` and
emails `a ≠ b`, validating the key derived for `a` against `b` returns
`valid = false` whenever the truncated digest fragments of `a` and `b`
differ (a truncated-hash collision is the only exception, and one must
exist by `digest_collision`). -/
theorem c6_email_binding (s tl : String)
    (htier : tl ∈ ["pro", "team", "enterprise"]) (a b key : String)
    (hkey : generate_license s a tl = Except.ok key)
    (hd : digestChars s b tl ≠ digestChars s a tl) :
    (validate_license s key b).valid = false := by
  obtain ⟨tc, hmem, htc3⟩ : ∃ tc, (tl, tc) ∈ tier_codes ∧ tc ∈ ['P', 'T', 'E'] := by
    have h3 : tl = "pro" ∨ tl = "team" ∨ tl = "enterprise" := by simpa using htier
    rcases h3 with h | h | h <;> subst h
    · exact ⟨'P', by decide, by decide⟩
    · exact ⟨'T', by decide, by decide⟩
    · exact ⟨'E', by decide, by decide⟩
  rw [generate_license_eq s a tl tc hmem] at hkey
  have hk := Except.ok.inj hkey
  subst hk
  rw [validate_generated s b a tl tc hmem htc3, if_neg (fun h => hd h.symm)]

/-- Witness for the amended C6 at the fixture secret `"S"`, tier
`"pro"`, emails `"a@b.com"` and `"c@d.com"`. -/
theorem c6_email_binding_witness :
    "pro" ∈ ["pro", "team", "enterprise"] ∧
    generate_license "S" "a@b.com" "pro" =
      Except.ok "PRLX-PLIF-EE79-CCA9-9C0F-6" ∧
    digestChars "S" "c@d.com" "pro" ≠ digestChars "S" "a@b.com" "pro" ∧
    (validate_license "S" "PRLX-PLIF-EE79-CCA9-9C0F-6" "c@d.com").valid = false :=
  ⟨by decide, by decide, by decide,
    c6_email_binding "S" "pro" (by decide) "a@b.com" "c@d.com" _ (by decide)
      (by decide)⟩

/-! ## Further facts about stripping -/

theorem dropTrailing_concat_pos (p : Char → Bool) (l : List Char) (z : Char)
    (hz : p z = true) : dropTrailing p (l ++ [z]) = dropTrailing p l := by
  unfold dropTrailing
  rw [List.reverse_append, List.reverse_singleton, List.singleton_append,
    List.dropWhile_cons, hz]
  simp

theorem dropTrailing_eq_self_of_getLast (p : Char → Bool) (l : List Char)
    (hne : l ≠ []) (hp : p (l.getLast hne) = false) : dropTrailing p l = l := by
  conv_lhs => rw [← List.dropLast_append_getLast hne]
  unfold dropTrailing
  rw [List.reverse_append, List.reverse_singleton, List.singleton_append,
    List.dropWhile_cons, hp]
  simp only [Bool.false_eq_true, if_false]
  rw [List.reverse_cons, List.reverse_reverse, List.dropLast_append_getLast hne]

theorem pyStrip_eq_self_of_ends (l : List Char) (hne : l ≠ [])
    (hhead : pySpace (l.head hne) = false) (hlast : pySpace (l.getLast hne) = false) :
    pyStrip l = l := by
  unfold pyStrip
  rw [dropTrailing_eq_self_of_getLast pySpace l hne hlast]
  cases l with
  | nil => rfl
  | cons a as =>
      rw [List.dropWhile_cons, show pySpace a = false from hhead]
      simp

/-! ## C10: the expiry marker is echoed, never checked

Positions 5 through 8 of a cleaned key never influence the verdict;
on success they are echoed back verbatim. -/

theorem validateClean_mid (s e : String) (a x b : List Char)
    (ha : a.length = 5) (hx : x.length = 4) :
    validateClean s (a ++ (x ++ b)) e =
      if a.take 4 ≠ "PRLX".toList then
        { valid := false, error := some "Invalid format: must start with PRLX" }
      else if 9 + b.length < 17 then
        { valid := false, error := some "Invalid format: key too short" }
      else
        match tier_map.lookup (a.getD 4 ' ') with
        | none => { valid := false, error := some "Invalid tier code" }
        | some tier =>
            if b ≠ digestChars s e tier then
              { valid := false, error := some "Invalid key: hash mismatch" }
            else
              { valid := true, tier := some tier, expiry := some (String.mk x),
                email := some e } := by
  have htake : (a ++ (x ++ b)).take 4 = a.take 4 := by
    rw [List.take_append_eq_append_take, ha]
    simp
  have hlen : (a ++ (x ++ b)).length = 9 + b.length := by
    simp only [List.length_append, ha, hx]
    omega
  have hgetD : (a ++ (x ++ b)).getD 4 ' ' = a.getD 4 ' ' :=
    List.getD_append _ _ _ _ (by omega)
  have hdrop5 : (a ++ (x ++ b)).drop 5 = x ++ b := List.drop_left' ha
  have hexp : ((a ++ (x ++ b)).drop 5).take 4 = x := by
    rw [hdrop5]
    exact List.take_left' hx
  have hdrop9 : (a ++ (x ++ b)).drop 9 = b := by
    rw [← List.append_assoc]
    exact List.drop_left' (by rw [List.length_append, ha, hx])
  unfold validateClean
  rw [htake, hlen, hgetD, hexp, hdrop9]

/-- C10: the validity verdict of `validate_license` is independent of
the expiry marker: for two cleaned keys differing only in the four
characters at positions 5 through 8, validation against the same email
returns the same verdict, and on success the supplied expiry characters
are echoed back unchecked. -/
theorem c10_expiry_ignored (s e : String) (a x y b : List Char)
    (ha : a.length = 5) (hx : x.length = 4) (hy : y.length = 4)
    (hcx : cleanKey (a ++ (x ++ b)) = a ++ (x ++ b))
    (hcy : cleanKey (a ++ (y ++ b)) = a ++ (y ++ b)) :
    ((validate_license s (String.mk (a ++ (x ++ b))) e).valid =
      (validate_license s (String.mk (a ++ (y ++ b))) e).valid) ∧
    ((validate_license s (String.mk (a ++ (x ++ b))) e).valid = true →
      (validate_license s (String.mk (a ++ (x ++ b))) e).expiry =
          some (String.mk x) ∧
        (validate_license s (String.mk (a ++ (y ++ b))) e).expiry =
          some (String.mk y)) := by
  unfold validate_license
  rw [toList_mk, toList_mk, hcx, hcy,
    validateClean_mid s e a x b ha hx, validateClean_mid s e a y b ha hy]
  by_cases h1 : a.take 4 ≠ "PRLX".toList
  · rw [if_pos h1, if_pos h1]
    exact ⟨rfl, fun h => absurd h Bool.false_ne_true⟩
  rw [if_neg h1, if_neg h1]
  by_cases h2 : 9 + b.length < 17
  · rw [if_pos h2, if_pos h2]
    exact ⟨rfl, fun h => absurd h Bool.false_ne_true⟩
  rw [if_neg h2, if_neg h2]
  rcases hlk : tier_map.lookup (a.getD 4 ' ') with _ | tier
  · exact ⟨rfl, fun h => absurd h Bool.false_ne_true⟩
  dsimp only
  by_cases h3 : b ≠ digestChars s e tier
  · rw [if_pos h3, if_pos h3]
    exact ⟨rfl, fun h => absurd h Bool.false_ne_true⟩
  · rw [if_neg h3, if_neg h3]
    exact ⟨rfl, fun _ => ⟨rfl, rfl⟩⟩

/-- Witness for C10: replacing the expiry marker `LIFE` by `WXYZ` in a
cleaned fixture key leaves the verdict unchanged, and both expiries are
echoed back. -/
theorem c10_expiry_ignored_witness :
    ("PRLXP".toList.length = 5 ∧ "LIFE".toList.length = 4 ∧
      "WXYZ".toList.length = 4 ∧
      cleanKey ("PRLXP".toList ++ ("LIFE".toList ++ "E79CCA99C0F6".toList)) =
        "PRLXP".toList ++ ("LIFE".toList ++ "E79CCA99C0F6".toList) ∧
      cleanKey ("PRLXP".toList ++ ("WXYZ".toList ++ "E79CCA99C0F6".toList)) =
        "PRLXP".toList ++ ("WXYZ".toList ++ "E79CCA99C0F6".toList)) ∧
    (((validate_license "S"
        (String.mk ("PRLXP".toList ++ ("LIFE".toList ++ "E79CCA99C0F6".toList)))
        "a@b.com").valid =
      (validate_license "S"
        (String.mk ("PRLXP".toList ++ ("WXYZ".toList ++ "E79CCA99C0F6".toList)))
        "a@b.com").valid) ∧
    ((validate_license "S"
        (String.mk ("PRLXP".toList ++ ("LIFE".toList ++ "E79CCA99C0F6".toList)))
        "a@b.com").valid = true →
      (validate_license "S"
        (String.mk ("PRLXP".toList ++ ("LIFE".toList ++ "E79CCA99C0F6".toList)))
        "a@b.com").expiry = some (String.mk "LIFE".toList) ∧
      (validate_license "S"
        (String.mk ("PRLXP".toList ++ ("WXYZ".toList ++ "E79CCA99C0F6".toList)))
        "a@b.com").expiry = some (String.mk "WXYZ".toList))) :=
  ⟨⟨by decide, by decide, by decide, by decide, by decide⟩,
    c10_expiry_ignored "S" "a@b.com" "PRLXP".toList "LIFE".toList "WXYZ".toList
      "E79CCA99C0F6".toList (by decide) (by decide) (by decide) (by decide)
      (by decide)⟩

/-! ## C5: tamper sensitivity of the digest portion -/

theorem pyStrip_append_nice (tc : Char) (htc : tc ∈ ['P', 'T', 'E']) (Y : List Char)
    (hY : ∀ x ∈ Y, pySpace x = false) :
    pyStrip (rawPrefix tc ++ Y) = rawPrefix tc ++ Y := by
  apply pyStrip_eq_self
  intro x hx
  rcases List.mem_append.mp hx with h | h
  · exact (rawPrefix_keep tc htc x h).2
  · exact hY x h

theorem pyStrip_concat (a : Char) (l : List Char) (z : Char)
    (ha : pySpace a = false) (hz : pySpace z = false) :
    pyStrip ((a :: l) ++ [z]) = (a :: l) ++ [z] := by
  unfold pyStrip
  rw [dropTrailing_eq_self_of_getLast pySpace _ (by simp)
    (by rw [List.getLast_concat]; exact hz)]
  rw [List.cons_append, List.dropWhile_cons, ha]
  simp

theorem cleanKey_tampered (tc : Char) (htc : tc ∈ ['P', 'T', 'E']) (d : List Char)
    (hd : ∀ x ∈ d, x ∈ upperHex) (hlen : d.length = 12) (i : Nat) (hi : i < 12)
    (c : Char) :
    ∃ X : List Char, cleanKey (rawPrefix tc ++ d.set i c) = rawPrefix tc ++ X ∧
      8 ≤ X.length ∧ (X = d.set i c ∨ X.length = 11) := by
  have hdnice : ∀ x ∈ d, keep x = true ∧ pySpace x = false :=
    fun x hx => upperHex_keep x (hd x hx)
  have hfilterRaw : (rawPrefix tc ++ d.set i c).filter keep =
      rawPrefix tc ++ (d.set i c).filter keep := by
    rw [List.filter_append,
      List.filter_eq_self.mpr (fun x hx => (rawPrefix_keep tc htc x hx).1)]
  by_cases hkc : keep c = true
  · have hfilter : (d.set i c).filter keep = d.set i c :=
      List.filter_eq_self.mpr (fun x hx => by
        rcases List.mem_or_eq_of_mem_set hx with h | h
        · exact (hdnice x h).1
        · rw [h]; exact hkc)
    by_cases hsc : pySpace c = true
    · by_cases hi11 : i = 11
      · subst hi11
        have hsplit : d.set 11 c = d.take 11 ++ [c] := by
          rw [List.set_eq_take_append_cons_drop, if_pos (by omega)]
          rw [List.drop_eq_nil_of_le (by omega)]
        have hall : ∀ x ∈ rawPrefix tc ++ d.take 11, pySpace x = false := by
          intro x hx
          rcases List.mem_append.mp hx with h | h
          · exact (rawPrefix_keep tc htc x h).2
          · exact (hdnice x (List.take_subset _ _ h)).2
        refine ⟨d.take 11, ?_, ?_, Or.inr ?_⟩
        · rw [cleanKey_eq, hfilterRaw, hfilter, hsplit]
          unfold pyStrip
          rw [← List.append_assoc, dropTrailing_concat_pos pySpace _ c hsc,
            dropTrailing_eq_self_of_forall _ _ hall,
            dropWhile_eq_self_of_forall _ _ hall]
        · rw [List.length_take, hlen]; decide
        · rw [List.length_take, hlen]; decide
      · obtain ⟨z, zs, hzzs⟩ : ∃ z zs, d = zs ++ [z] := by
          rcases hr : d.reverse with _ | ⟨z, zs⟩
          · have hnil : d = [] := by simpa using congrArg List.reverse hr
            rw [hnil] at hlen
            simp at hlen
          · refine ⟨z, zs.reverse, ?_⟩
            have hrr := congrArg List.reverse hr
            rw [List.reverse_reverse] at hrr
            rw [hrr, List.reverse_cons]
        have hzslen : zs.length = 11 := by
          have := congrArg List.length hzzs
          rw [hlen, List.length_append] at this
          simp at this
          omega
        have hz : pySpace z = false :=
          (hdnice z (by rw [hzzs]; exact List.mem_append_right _ (by simp))).2
        have hset2 : d.set i c = zs.set i c ++ [z] := by
          rw [hzzs, List.set_append, if_pos (by omega)]
        refine ⟨d.set i c, ?_, ?_, Or.inl rfl⟩
        · rw [cleanKey_eq, hfilterRaw, hfilter, hset2, ← List.append_assoc,
            show rawPrefix tc = 'P' :: ['R', 'L', 'X', tc, 'L', 'I', 'F', 'E']
              from rfl,
            List.cons_append]
          exact pyStrip_concat 'P' _ z (by decide) hz
        · rw [List.length_set, hlen]; omega
    · rw [Bool.not_eq_true] at hsc
      refine ⟨d.set i c, ?_, ?_, Or.inl rfl⟩
      · rw [cleanKey_eq, hfilterRaw, hfilter]
        apply pyStrip_append_nice tc htc
        intro x hx
        rcases List.mem_or_eq_of_mem_set hx with h | h
        · exact (hdnice x h).2
        · rw [h]; exact hsc
      · rw [List.length_set, hlen]; omega
  · rw [Bool.not_eq_true] at hkc
    have hsplit : d.set i c = d.take i ++ c :: d.drop (i + 1) := by
      rw [List.set_eq_take_append_cons_drop, if_pos (by omega)]
    have hfilter : (d.set i c).filter keep = d.take i ++ d.drop (i + 1) := by
      rw [hsplit, List.filter_append, List.filter_cons, hkc]
      simp only [Bool.false_eq_true, if_false]
      rw [List.filter_eq_self.mpr
          (fun x hx => (hdnice x (List.take_subset _ _ hx)).1),
        List.filter_eq_self.mpr
          (fun x hx => (hdnice x (List.drop_subset _ _ hx)).1)]
    refine ⟨d.take i ++ d.drop (i + 1), ?_, ?_, Or.inr ?_⟩
    · rw [cleanKey_eq, hfilterRaw, hfilter]
      apply pyStrip_append_nice tc htc
      intro x hx
      rcases List.mem_append.mp hx with h | h
      · exact (hdnice x (List.take_subset _ _ h)).2
      · exact (hdnice x (List.drop_subset _ _ h)).2
    · rw [List.length_append, List.length_take, List.length_drop, hlen,
        Nat.min_eq_left (by omega)]
      omega
    · rw [List.length_append, List.length_take, List.length_drop, hlen,
        Nat.min_eq_left (by omega)]
      omega

/-- C5: changing any single character of the digest portion (the
characters after the first 9 of the cleaned key) of a generated key to
a different character makes validation of the altered key against the
same email fail with the hash-mismatch reason. -/
theorem c5_tamper (s e tier : String)
    (htier : tier ∈ ["pro", "team", "enterprise"]) (key : String)
    (hkey : generate_license s e tier = Except.ok key) (i : Nat) (hi : i < 12)
    (c : Char) (hc : c ≠ (cleanKey key.toList).getD (9 + i) ' ') :
    validate_license s (String.mk ((cleanKey key.toList).set (9 + i) c)) e =
      { valid := false, error := some "Invalid key: hash mismatch" } := by
  obtain ⟨tc, hmem, htc3⟩ : ∃ tc, (tier, tc) ∈ tier_codes ∧ tc ∈ ['P', 'T', 'E'] := by
    have h3 : tier = "pro" ∨ tier = "team" ∨ tier = "enterprise" := by
      simpa using htier
    rcases h3 with h | h | h <;> subst h
    · exact ⟨'P', by decide, by decide⟩
    · exact ⟨'T', by decide, by decide⟩
    · exact ⟨'E', by decide, by decide⟩
  rw [generate_license_eq s e tier tc hmem] at hkey
  have hk := Except.ok.inj hkey
  subst hk
  have hdig : ∀ x ∈ digestChars s e tier, x ∈ upperHex :=
    fun x hx => mem_digestChars x s e tier hx
  have hdlen := digestChars_length s e tier
  have hcl : cleanKey (String.mk (joinWith ['-']
      (pySegments (rawPrefix tc ++ digestChars s e tier)))).toList =
      rawPrefix tc ++ digestChars s e tier := by
    rw [toList_mk]
    exact cleanKey_generated tc htc3 _ hdig
  rw [hcl] at hc ⊢
  have h9 : (rawPrefix tc).length = 9 := rfl
  have hgd : (rawPrefix tc ++ digestChars s e tier).getD (9 + i) ' ' =
      (digestChars s e tier).getD i ' ' := by
    rw [List.getD_append_right _ _ _ _ (by rw [h9]; omega), h9]
    congr 1
    omega
  rw [hgd] at hc
  have hset : (rawPrefix tc ++ digestChars s e tier).set (9 + i) c =
      rawPrefix tc ++ (digestChars s e tier).set i c := by
    rw [List.set_append, if_neg (by rw [h9]; omega), h9]
    congr 2
    omega
  rw [hset]
  obtain ⟨X, hX, hX8, hXcase⟩ :=
    cleanKey_tampered tc htc3 (digestChars s e tier) hdig hdlen i hi c
  have hXne : X ≠ digestChars s e tier := by
    rcases hXcase with hXeq | hX11
    · subst hXeq
      intro heq
      have hgot : ((digestChars s e tier).set i c).getD i ' ' = c := by
        rw [List.getD_eq_getElem _ _ (by rw [List.length_set, hdlen]; omega),
          List.getElem_set_self]
      rw [heq] at hgot
      exact hc hgot.symm
    · intro heq
      have := congrArg List.length heq
      rw [hX11, hdlen] at this
      simp at this
  unfold validate_license
  rw [toList_mk, hX, validateClean_raw s e tier tc hmem X hX8, if_neg hXne]

/-- Witness for C5 at the fixture: flipping the first digest character
of the fixture key to `'0'` yields a hash mismatch. -/
theorem c5_tamper_witness :
    "pro" ∈ ["pro", "team", "enterprise"] ∧
    generate_license "S" "a@b.com" "pro" =
      Except.ok "PRLX-PLIF-EE79-CCA9-9C0F-6" ∧
    (0 : Nat) < 12 ∧
    ('0' : Char) ≠
      (cleanKey "PRLX-PLIF-EE79-CCA9-9C0F-6".toList).getD (9 + 0) ' ' ∧
    validate_license "S"
        (String.mk ((cleanKey "PRLX-PLIF-EE79-CCA9-9C0F-6".toList).set (9 + 0) '0'))
        "a@b.com" =
      { valid := false, error := some "Invalid key: hash mismatch" } :=
  ⟨by decide, by decide, by decide, by decide,
    c5_tamper "S" "a@b.com" "pro" (by decide) "PRLX-PLIF-EE79-CCA9-9C0F-6"
      (by decide) 0 (by decide) '0' (by decide)⟩

/-! ## C7: format resilience

The cleaning step removes hyphens and spaces everywhere but other
whitespace only at the ends: a tab inserted in the middle of a key
changes the validation result, refuting the claim for arbitrary
whitespace. The amended claim is proved for hyphen and space insertion
anywhere and for leading and trailing whitespace. -/

theorem filter_insertIdx (p : Char → Bool) (c : Char) (hc : p c = false) :
    ∀ (i : Nat) (l : List Char), (List.insertIdx i c l).filter p = l.filter p
  | 0, l => by
      rw [List.insertIdx_zero, List.filter_cons, hc]
      simp
  | i + 1, [] => by rw [List.insertIdx_succ_nil]
  | i + 1, a :: l => by
      rw [List.insertIdx_succ_cons, List.filter_cons, List.filter_cons,
        filter_insertIdx p c hc i l]

theorem pyStrip_concat_ws (l : List Char) (w : Char) (hw : pySpace w = true) :
    pyStrip (l ++ [w]) = pyStrip l := by
  unfold pyStrip
  rw [dropTrailing_concat_pos pySpace l w hw]

theorem pyStrip_cons_ws (w : Char) (l : List Char) (hw : pySpace w = true) :
    pyStrip (w :: l) = pyStrip l := by
  unfold pyStrip
  by_cases h : List.dropWhile pySpace l.reverse = []
  · have h1 : dropTrailing pySpace (w :: l) = [] := by
      unfold dropTrailing
      have hall : List.dropWhile pySpace (w :: l).reverse = [] := by
        rw [List.dropWhile_eq_nil_iff]
        intro x hx
        rcases List.mem_cons.mp (List.mem_reverse.mp hx) with hxw | hxl
        · rw [hxw]; exact hw
        · exact List.dropWhile_eq_nil_iff.mp h x (List.mem_reverse.mpr hxl)
      rw [hall]
      rfl
    have h2 : dropTrailing pySpace l = [] := by
      unfold dropTrailing
      rw [h]
      rfl
    rw [h1, h2]
  · have h1 : dropTrailing pySpace (w :: l) = w :: dropTrailing pySpace l := by
      unfold dropTrailing
      rw [List.reverse_cons, List.dropWhile_append,
        if_neg (by simpa [List.isEmpty_iff] using h),
        List.reverse_append, List.reverse_singleton, List.singleton_append]
    rw [h1, List.dropWhile_cons, hw]
    simp

/-- Counterexample to C7 as stated: inserting a tab in the middle of a
key changes the validation result (tabs are whitespace, but the cleaner
removes only hyphens and spaces from the interior). -/
theorem c7_counterexample :
    validate_license SECRET_KEY "P\tRLXPLIFE000000000000" "x@y.z" ≠
      validate_license SECRET_KEY "PRLXPLIFE000000000000" "x@y.z" := by
  decide

/-- C7 amended: the validation result is unchanged by inserting a
hyphen or a space anywhere in the key, and by prepending or appending
any whitespace character. -/
theorem c7_format_resilience (s e k : String) (i : Nat) (c : Char)
    (hc : c = '-' ∨ c = ' ') (w : Char) (hw : pySpace w = true) :
    validate_license s (String.mk (List.insertIdx i c k.toList)) e =
      validate_license s k e ∧
    validate_license s (String.mk (w :: k.toList)) e = validate_license s k e ∧
    validate_license s (String.mk (k.toList ++ [w])) e = validate_license s k e := by
  refine ⟨?_, ?_, ?_⟩ <;> unfold validate_license <;> rw [toList_mk] <;> congr 1
  · rw [cleanKey_eq, cleanKey_eq,
      filter_insertIdx keep c (by rcases hc with h | h <;> subst h <;> decide) i
        k.toList]
  · rw [cleanKey_eq, cleanKey_eq]
    by_cases hw2 : keep w = true
    · rw [show List.filter keep (w :: k.toList) = w :: List.filter keep k.toList
        from by rw [List.filter_cons, hw2]; simp]
      exact pyStrip_cons_ws w _ hw
    · rw [Bool.not_eq_true] at hw2
      rw [List.filter_cons, hw2]
      simp
  · rw [cleanKey_eq, cleanKey_eq, List.filter_append]
    by_cases hw2 : keep w = true
    · rw [show List.filter keep [w] = [w] from by
        rw [List.filter_cons, hw2]; rfl]
      exact pyStrip_concat_ws _ w hw
    · rw [Bool.not_eq_true] at hw2
      rw [show List.filter keep [w] = [] from by
        rw [List.filter_cons, hw2]; rfl]
      rw [List.append_nil]

/-- Witness for the amended C7 at the fixture key, inserting a hyphen
at position 2 and padding with a tab. -/
theorem c7_format_resilience_witness :
    (('-' : Char) = '-' ∨ ('-' : Char) = ' ') ∧
    pySpace '\t' = true ∧
    (validate_license "S"
        (String.mk (List.insertIdx 2 '-' "PRLX-PLIF-EE79-CCA9-9C0F-6".toList))
        "a@b.com" =
      validate_license "S" "PRLX-PLIF-EE79-CCA9-9C0F-6" "a@b.com" ∧
    validate_license "S" (String.mk ('\t' :: "PRLX-PLIF-EE79-CCA9-9C0F-6".toList))
        "a@b.com" =
      validate_license "S" "PRLX-PLIF-EE79-CCA9-9C0F-6" "a@b.com" ∧
    validate_license "S" (String.mk ("PRLX-PLIF-EE79-CCA9-9C0F-6".toList ++ ['\t']))
        "a@b.com" =
      validate_license "S" "PRLX-PLIF-EE79-CCA9-9C0F-6" "a@b.com") :=
  ⟨Or.inl rfl, by decide,
    c7_format_resilience "S" "a@b.com" "PRLX-PLIF-EE79-CCA9-9C0F-6" 2 '-'
      (Or.inl rfl) '\t' (by decide)⟩

end Parallax
